import Mathlib

namespace PredictiveRolls

/-!
# PredictiveRolls betting engine: a formal model

A shallow embedding, in Lean 4, of the core of the PredictiveRolls
repository: the provably-fair roll generators (`src/sites/fake_test.rs` and
`src/dataset.rs`), the site adapters' stake handling (`src/sites/crypto_games.rs`
and `src/sites/free_bitco_in.rs`), the rolling bet history, the feature
encoder (`src/util.rs`, `src/main.rs`), the rate-limit handler
(`android-lib/src/duckdice_api.rs`) and the orchestrator's error dispatch
(`src/main.rs`).

Conventions of the embedding:

* Byte strings are `List Nat` with entries below 256; hex digests are handled
  as lists of nibble values below 16 (the Rust code hex-encodes digests to
  `String` and parses digit windows back with `from_str_radix`, which is the
  same data presented as characters).
* Rust `u32`/`u64` arithmetic is `Nat` with explicit `% 2 ^ 32` / `% 2 ^ 64`
  where overflow can occur.
* Monetary `f32` values flow through the modelled code paths only via
  comparisons, `max`/`min`/`clamp` and constants, so they are modelled as
  exact rationals (`ℚ`); on the concrete inputs used in the theorems every
  constant is exactly representable in `f32` and the two readings agree.
* Code that can panic is modelled with `Option` (a scan running off the end
  of a digest) or with an explicit `DoBetOutcome.panicked` constructor
  (the adapters' `panic!("Not enough money!")`).

SHA-256 and SHA-512 are implemented from FIPS 180-4 (the Rust code calls the
`sha2` crate); HMAC is implemented from RFC 2104 (the Rust code calls
`ring::hmac`).  All implementations here were checked against standard test
vectors.
-/

/-! ## Machine-word helpers -/

/-- Right-rotation of a `w`-bit word by `r` places. -/
def rotr (w r x : Nat) : Nat := ((x >>> r) ||| (x <<< (w - r))) % 2 ^ w

/-- Big-endian serialization of `x` into exactly `n` bytes
(Rust `u64::to_be_bytes` is `beBytes 8`). -/
def beBytes : Nat → Nat → List Nat
  | 0, _ => []
  | n + 1, x => beBytes n (x >>> 8) ++ [x % 256]

/-- Big-endian word from bytes: first byte most significant. -/
def wordBE (bs : List Nat) : Nat := bs.foldl (fun acc b => acc * 256 + b) 0

/-- Split a byte list into chunks of `sz` bytes; `fuel` bounds the recursion
(callers pass the list length, which always suffices). -/
def chunks (sz : Nat) : Nat → List Nat → List (List Nat)
  | 0, _ => []
  | _, [] => []
  | fuel + 1, l => l.take sz :: chunks sz fuel (l.drop sz)

/-! ## SHA-2 (FIPS 180-4) -/

/-- The eight working registers of a SHA-2 computation. -/
structure Words8 where
  a : Nat
  b : Nat
  c : Nat
  d : Nat
  e : Nat
  f : Nat
  g : Nat
  h : Nat

/-- Parameters distinguishing the SHA-2 family members. -/
structure ShaParams where
  wbits : Nat
  blockBytes : Nat
  lenBytes : Nat
  bs0 : Nat × Nat × Nat
  bs1 : Nat × Nat × Nat
  ss0 : Nat × Nat × Nat
  ss1 : Nat × Nat × Nat
  K : List Nat
  init : Words8

def bigSigma (w : Nat) (r : Nat × Nat × Nat) (x : Nat) : Nat :=
  rotr w r.1 x ^^^ rotr w r.2.1 x ^^^ rotr w r.2.2 x

def smallSigma (w : Nat) (r : Nat × Nat × Nat) (x : Nat) : Nat :=
  rotr w r.1 x ^^^ rotr w r.2.1 x ^^^ (x >>> r.2.2)

def ch (w x y z : Nat) : Nat := (x &&& y) ^^^ ((x ^^^ (2 ^ w - 1)) &&& z)

def maj (x y z : Nat) : Nat := (x &&& y) ^^^ (x &&& z) ^^^ (y &&& z)

/-- FIPS 180-4 padding: `0x80`, zero bytes, then the bit length over
`lenBytes` bytes, reaching a multiple of the block size. -/
def shaPad (p : ShaParams) (msg : List Nat) : List Nat :=
  let len := msg.length
  let zeros := (p.blockBytes - (len + 1 + p.lenBytes) % p.blockBytes) % p.blockBytes
  msg ++ 128 :: (List.replicate zeros 0 ++ beBytes p.lenBytes (8 * len))

/-- Message-schedule extension, most recent word first. -/
def scheduleRev (p : ShaParams) : Nat → List Nat → List Nat
  | 0, acc => acc
  | fuel + 1, acc =>
    let nw := (smallSigma p.wbits p.ss1 (acc.getD 1 0) + acc.getD 6 0 +
               smallSigma p.wbits p.ss0 (acc.getD 14 0) + acc.getD 15 0) % 2 ^ p.wbits
    scheduleRev p fuel (nw :: acc)

/-- Full message schedule of one block: one word per round. -/
def schedule (p : ShaParams) (block : List Nat) : List Nat :=
  let w16 := (chunks (p.wbits / 8) block.length block).map wordBE
  (scheduleRev p (p.K.length - 16) w16.reverse).reverse

def roundStep (p : ShaParams) (st : Words8) (kw : Nat × Nat) : Words8 :=
  let t1 := (st.h + bigSigma p.wbits p.bs1 st.e + ch p.wbits st.e st.f st.g +
             kw.1 + kw.2) % 2 ^ p.wbits
  let t2 := (bigSigma p.wbits p.bs0 st.a + maj st.a st.b st.c) % 2 ^ p.wbits
  ⟨(t1 + t2) % 2 ^ p.wbits, st.a, st.b, st.c, (st.d + t1) % 2 ^ p.wbits, st.e, st.f, st.g⟩

def compress (p : ShaParams) (st : Words8) (block : List Nat) : Words8 :=
  let r := (p.K.zip (schedule p block)).foldl (roundStep p) st
  ⟨(st.a + r.a) % 2 ^ p.wbits, (st.b + r.b) % 2 ^ p.wbits, (st.c + r.c) % 2 ^ p.wbits,
   (st.d + r.d) % 2 ^ p.wbits, (st.e + r.e) % 2 ^ p.wbits, (st.f + r.f) % 2 ^ p.wbits,
   (st.g + r.g) % 2 ^ p.wbits, (st.h + r.h) % 2 ^ p.wbits⟩

def shaDigest (p : ShaParams) (st : Words8) : List Nat :=
  beBytes (p.wbits / 8) st.a ++ beBytes (p.wbits / 8) st.b ++ beBytes (p.wbits / 8) st.c ++
  beBytes (p.wbits / 8) st.d ++ beBytes (p.wbits / 8) st.e ++ beBytes (p.wbits / 8) st.f ++
  beBytes (p.wbits / 8) st.g ++ beBytes (p.wbits / 8) st.h

def shaHash (p : ShaParams) (msg : List Nat) : List Nat :=
  let padded := shaPad p msg
  shaDigest p ((chunks p.blockBytes padded.length padded).foldl (compress p) p.init)

/-- SHA-256: 32-bit words, 64-byte blocks, the FIPS 180-4 rotation counts
and round constants (the constants are written in decimal). -/
def sha256Params : ShaParams where
  wbits := 32
  blockBytes := 64
  lenBytes := 8
  bs0 := (2, 13, 22)
  bs1 := (6, 11, 25)
  ss0 := (7, 18, 3)
  ss1 := (17, 19, 10)
  K := [
    1116352408, 1899447441, 3049323471, 3921009573, 961987163, 1508970993,
    2453635748, 2870763221, 3624381080, 310598401, 607225278, 1426881987,
    1925078388, 2162078206, 2614888103, 3248222580, 3835390401, 4022224774,
    264347078, 604807628, 770255983, 1249150122, 1555081692, 1996064986,
    2554220882, 2821834349, 2952996808, 3210313671, 3336571891, 3584528711,
    113926993, 338241895, 666307205, 773529912, 1294757372, 1396182291,
    1695183700, 1986661051, 2177026350, 2456956037, 2730485921, 2820302411,
    3259730800, 3345764771, 3516065817, 3600352804, 4094571909, 275423344,
    430227734, 506948616, 659060556, 883997877, 958139571, 1322822218,
    1537002063, 1747873779, 1955562222, 2024104815, 2227730452, 2361852424,
    2428436474, 2756734187, 3204031479, 3329325298]
  init := ⟨1779033703, 3144134277, 1013904242, 2773480762,
           1359893119, 2600822924, 528734635, 1541459225⟩

/-- SHA-512: 64-bit words, 128-byte blocks, the FIPS 180-4 rotation counts
and round constants (the constants are written in decimal). -/
def sha512Params : ShaParams where
  wbits := 64
  blockBytes := 128
  lenBytes := 16
  bs0 := (28, 34, 39)
  bs1 := (14, 18, 41)
  ss0 := (1, 8, 7)
  ss1 := (19, 61, 6)
  K := [
    4794697086780616226, 8158064640168781261, 13096744586834688815, 16840607885511220156,
    4131703408338449720, 6480981068601479193, 10538285296894168987, 12329834152419229976,
    15566598209576043074, 1334009975649890238, 2608012711638119052, 6128411473006802146,
    8268148722764581231, 9286055187155687089, 11230858885718282805, 13951009754708518548,
    16472876342353939154, 17275323862435702243, 1135362057144423861, 2597628984639134821,
    3308224258029322869, 5365058923640841347, 6679025012923562964, 8573033837759648693,
    10970295158949994411, 12119686244451234320, 12683024718118986047, 13788192230050041572,
    14330467153632333762, 15395433587784984357, 489312712824947311, 1452737877330783856,
    2861767655752347644, 3322285676063803686, 5560940570517711597, 5996557281743188959,
    7280758554555802590, 8532644243296465576, 9350256976987008742, 10552545826968843579,
    11727347734174303076, 12113106623233404929, 14000437183269869457, 14369950271660146224,
    15101387698204529176, 15463397548674623760, 17586052441742319658, 1182934255886127544,
    1847814050463011016, 2177327727835720531, 2830643537854262169, 3796741975233480872,
    4115178125766777443, 5681478168544905931, 6601373596472566643, 7507060721942968483,
    8399075790359081724, 8693463985226723168, 9568029438360202098, 10144078919501101548,
    10430055236837252648, 11840083180663258601, 13761210420658862357, 14299343276471374635,
    14566680578165727644, 15097957966210449927, 16922976911328602910, 17689382322260857208,
    500013540394364858, 748580250866718886, 1242879168328830382, 1977374033974150939,
    2944078676154940804, 3659926193048069267, 4368137639120453308, 4836135668995329356,
    5532061633213252278, 6448918945643986474, 6902733635092675308, 7801388544844847127]
  init := ⟨7640891576956012808, 13503953896175478587,
           4354685564936845355, 11912009170470909681,
           5840696475078001361, 11170449401992604703,
           2270897969802886507, 6620516959819538809⟩

/-- SHA-256 of a byte string (the Rust code's `sha2::Sha256`). -/
def sha256 (msg : List Nat) : List Nat := shaHash sha256Params msg

/-- SHA-512 of a byte string (the Rust code's `sha2::Sha512`). -/
def sha512 (msg : List Nat) : List Nat := shaHash sha512Params msg

/-- HMAC (RFC 2104) over a hash function with the given block size
(the Rust code's `ring::hmac::sign`). -/
def hmac (hash : List Nat → List Nat) (blockBytes : Nat) (key msg : List Nat) : List Nat :=
  let k0 := if blockBytes < key.length then hash key else key
  let k1 := k0 ++ List.replicate (blockBytes - k0.length) 0
  hash ((k1.map (· ^^^ 0x5c)) ++ hash ((k1.map (· ^^^ 0x36)) ++ msg))

/-! ## The site-A (rejection-sampling) roll: `src/sites/fake_test.rs` -/

/-- A digest as nibble values below 16, in hex-string order
(`hex::encode` followed by per-character digit values). -/
def hexNibbles (bs : List Nat) : List Nat := (bs.map (fun b => [b >>> 4, b &&& 15])).flatten

/-- Integer value of a hex-digit window (`u32::from_str_radix(_, 16)`). -/
def windowVal (w : List Nat) : Nat := w.foldl (fun a d => a * 16 + d) 0

/-- The `while lucky > 1000000` scan of `fake_test::gen_fake_bet` (lines 59-64):
read 5 hex digits, accept the value if it is at most 1,000,000, else advance
by 5.  `none` models the Rust slice panic when fewer than 5 digits remain. -/
def luckyScan : List Nat → Option Nat
  | d0 :: d1 :: d2 :: d3 :: d4 :: rest =>
    let v := windowVal [d0, d1, d2, d3, d4]
    if v ≤ 1000000 then some v else luckyScan rest
  | _ => none

/-- Decimal ASCII digits of `n` (`u64::to_string`); `fuel` bounds recursion. -/
def natDecDigits : Nat → Nat → List Nat
  | 0, _ => []
  | fuel + 1, n => if n = 0 then [] else natDecDigits fuel (n / 10) ++ [48 + n % 10]

/-- Decimal ASCII byte string of `n` (`u64::to_string`). -/
def natDecBytes (n : Nat) : List Nat := if n = 0 then [48] else natDecDigits (n + 1) n

/-- The roll computation of `fake_test::gen_fake_bet` (lines 49-65): SHA-512
of `server_seed ++ client_seed ++ decimal(nonce)`, hex-encoded, scanned by
`luckyScan`; the accepted value is reduced mod 10000.  `none` models the
panic should the scan run off the digest. -/
def gen_fake_bet_number (server_seed client_seed : List Nat) (nonce : Nat) : Option Nat :=
  (luckyScan (hexNibbles (sha512 (server_seed ++ client_seed ++ natDecBytes nonce)))).map
    (· % 10000)

/-- Modelled from the spec: the acceptance rule C1 claims, taking the first
5-hex-digit window with value strictly below `0x100000`. -/
def claimedScan : List Nat → Option Nat
  | d0 :: d1 :: d2 :: d3 :: d4 :: rest =>
    let v := windowVal [d0, d1, d2, d3, d4]
    if v < 0x100000 then some v else claimedScan rest
  | _ => none

/-- Modelled from the spec: the roll C1 claims for site A, which is not what
`fake_test.rs` implements.  HMAC-SHA512 keyed by the server seed over
`server_seed ++ client_seed ++ decimal(nonce)`, hex-encoded; 5-hex-digit
windows scanned left to right; the first window strictly below `0x100000`
is accepted; result is the accepted value mod 10000. -/
def claimed_site_a_roll (server_seed client_seed : List Nat) (nonce : Nat) : Option Nat :=
  (claimedScan (hexNibbles (hmac sha512 128 server_seed
    (server_seed ++ client_seed ++ natDecBytes nonce)))).map (· % 10000)

/-- Successive complete 5-hex-digit windows of a digest, left to right;
a trailing fragment shorter than 5 digits is not a window (the code would
panic before reading it). -/
def fiveDigitWindows : List Nat → List (List Nat)
  | d0 :: d1 :: d2 :: d3 :: d4 :: rest => [d0, d1, d2, d3, d4] :: fiveDigitWindows rest
  | _ => []

/-- The amended site-A roll, worded as the corrected spec sentence: plain
SHA-512 (no HMAC) of `server_seed ++ client_seed ++ decimal(nonce)`,
hex-encoded; among the digest's complete 5-hex-digit windows the first one
whose value is at most 1,000,000 (decimal) is accepted; the result is that
value mod 10000. -/
def amended_site_a_roll (server_seed client_seed : List Nat) (nonce : Nat) : Option Nat :=
  ((fiveDigitWindows (hexNibbles (sha512 (server_seed ++ client_seed ++ natDecBytes nonce)))).find?
    (fun w => windowVal w ≤ 1000000)).map (fun w => windowVal w % 10000)

/-! ## The site-B (direct-HMAC) roll: `src/dataset.rs` -/

/-- Little-endian u32 from exactly four bytes (`u32::from_le_bytes` applied
to `&tag.as_ref()[..4]`); the wildcard arm is unreachable because a SHA-256
tag always has 32 bytes (`hmac_sha256_length`). -/
def u32_from_le_bytes : List Nat → Nat
  | [b0, b1, b2, b3] => b0 + 256 * b1 + 65536 * b2 + 16777216 * b3
  | _ => 0

/-- The roll computation of `dataset::gen_fake_bet` (lines 71-82):
HMAC-SHA256 keyed by the server seed over
`server_seed ++ client_seed ++ nonce.to_be_bytes()`; the first 4 tag bytes
read little-endian, reduced mod 10000. -/
def dataset_gen_fake_bet_number (server_seed client_seed : List Nat) (nonce : Nat) : Nat :=
  let tag := hmac sha256 64 server_seed (server_seed ++ client_seed ++ beBytes 8 nonce)
  u32_from_le_bytes (tag.take 4) % 10000

/-- The site-B roll as the spec words it: HMAC-SHA256 with key `server_seed`
over `server_seed || client_seed || nonce` as big-endian bytes; the first
four bytes of the tag interpreted as a little-endian u32 (byte 0 least
significant), reduced mod 10000. -/
def claimed_site_b_roll (server_seed client_seed : List Nat) (nonce : Nat) : Nat :=
  let tag := hmac sha256 64 server_seed (server_seed ++ client_seed ++ beBytes 8 nonce)
  (tag.getD 0 0 + 2 ^ 8 * tag.getD 1 0 + 2 ^ 16 * tag.getD 2 0 + 2 ^ 24 * tag.getD 3 0) % 10000

/-! ## Canonical data model: `src/sites/mod.rs` -/

/-- The error taxonomy of `sites/mod.rs` (lines 9-17), exactly its six
variants; a `reqwest::Error` is carried as its message.  Note the absence of
any insufficient-balance variant. -/
inductive BetError where
  | EmptyReply
  | Failed
  | LoginFailed
  | ConfigError (msg : List Char)
  | ModelError (msg : List Char)
  | ReqwestError (msg : List Char)
deriving DecidableEq

/-- The canonical `BetResult` of `sites/mod.rs` (lines 40-55); `f32` money
fields are modelled as exact rationals. -/
structure BetResult where
  hash_previous_roll : List Char
  hash_next_roll : List Char
  client_seed : List Char
  nonce : Nat
  symbol : List Char
  result : Bool
  is_high : Bool
  number : Nat
  threshold : Nat
  chance : ℚ
  payout : ℚ
  bet_amount : ℚ
  win_amount : ℚ
deriving DecidableEq

/-- A concrete canonical bet result used to instantiate theorems. -/
def sampleBetResult : BetResult where
  hash_previous_roll := []
  hash_next_roll := []
  client_seed := []
  nonce := 0
  symbol := "BTC".toList
  result := true
  is_high := true
  number := 5001
  threshold := 0
  chance := 0
  payout := 0
  bet_amount := 0
  win_amount := 0

/-! ## Stake handling in the adapters:
`src/sites/crypto_games.rs`, `src/sites/free_bitco_in.rs` -/

/-- Outcome of a `do_bet` call: a normal return, an error return, or a
process-aborting `panic!`. -/
inductive DoBetOutcome where
  | ok (res : BetResult)
  | err (e : BetError)
  | panicked (msg : List Char)
deriving DecidableEq

/-- Adapter state read by `CryptoGames::do_bet` when sizing a stake:
history length and size, the currency minimum bet, and the strategy's
balance. -/
structure CryptoGamesState where
  history_len : Nat
  history_size : Nat
  min_bet : ℚ
  strategy_balance : ℚ

/-- Stake and multiplier `CryptoGames::do_bet` actually sends (lines
207-236): the strategy's stake — overridden by the currency minimum until
the history window is full — clamped from below by the currency minimum;
the multiplier clamped into `[1.02, 9900]`.  The balance is not consulted. -/
def crypto_games_wager (st : CryptoGamesState) (strat_stake strat_mult : ℚ) : ℚ × ℚ :=
  let stake := if st.history_len < st.history_size then st.min_bet else strat_stake
  let mult := if st.history_len < st.history_size then 2 else strat_mult
  (max stake st.min_bet, max 1.02 (min mult 9900))

/-- `CryptoGames::do_bet` once the HTTP response `res` has arrived (lines
238-250): the response is parsed and pushed to history, then the adapter
panics if the wagered stake exceeds the strategy balance, else returns. -/
def crypto_games_do_bet_settle (st : CryptoGamesState) (strat_stake strat_mult : ℚ)
    (res : BetResult) : DoBetOutcome :=
  if st.strategy_balance < (crypto_games_wager st strat_stake strat_mult).1 then
    .panicked "Not enough money!".toList
  else .ok res

/-- Stake `FreeBitcoIn::do_bet` actually sends (lines 283-337): the
strategy's stake, overridden by the hard-coded `1e-8` until the history
window is full; no other clamp is applied to the stake. -/
def free_bitco_in_wager (history_len history_size : Nat) (strat_stake : ℚ) : ℚ :=
  if history_len < history_size then 1 / 100000000 else strat_stake

/-- `FreeBitcoIn::do_bet` (live path) once the response has arrived (lines
339-351): push to history, panic if the stake exceeds the account balance,
else return. -/
def free_bitco_in_do_bet_settle (balance : ℚ) (history_len history_size : Nat)
    (strat_stake : ℚ) (res : BetResult) : DoBetOutcome :=
  if balance < free_bitco_in_wager history_len history_size strat_stake then
    .panicked "Not enough money!".toList
  else .ok res

/-- Modelled from the spec: the stake clamp C2 claims every variant applies,
`max(currency_min_bet, min(stake, bankroll))`. -/
def spec_clamped_stake (min_bet bankroll stake : ℚ) : ℚ :=
  max min_bet (min stake bankroll)

/-! ## The rolling history window -/

/-- One push into the rolling history: `history.push(x)` followed by
dropping the oldest entry when the length exceeds `history_size`
(crypto_games.rs lines 241-244, free_bitco_in.rs lines 342-345). -/
def push_history {α : Type} (history_size : Nat) (history : List α) (x : α) : List α :=
  let h2 := history ++ [x]
  if history_size < h2.length then h2.drop 1 else h2

/-! ## Feature encoding: `src/util.rs`, `src/main.rs` -/

/-- Rust `char::to_digit(16)`, by code point: `'0'..'9'` (48-57),
`'a'..'f'` (97-102), `'A'..'F'` (65-70). -/
def hex_char_digit (c : Char) : Option Nat :=
  if 48 ≤ c.toNat ∧ c.toNat ≤ 57 then some (c.toNat - 48)
  else if 97 ≤ c.toNat ∧ c.toNat ≤ 102 then some (c.toNat - 87)
  else if 65 ≤ c.toNat ∧ c.toNat ≤ 70 then some (c.toNat - 55)
  else none

/-- `util::hex_string_to_binary_vec` (lines 25-35): each character becomes
4 bits, most significant first, non-hex characters counting as value 0
(`unwrap_or(0)`). -/
def hex_string_to_binary_vec (s : List Char) : List Nat :=
  (s.map (fun c =>
    let v := (hex_char_digit c).getD 0
    [(v >>> 3) &&& 1, (v >>> 2) &&& 1, (v >>> 1) &&& 1, v &&& 1])).flatten

/-- `Vec::resize(n, 0)`: truncate to `n`, or pad with zeros up to `n`. -/
def vec_resize (l : List Nat) (n : Nat) : List Nat :=
  l.take n ++ List.replicate (n - l.length) 0

/-- The 1024-bit feature slot one `BetResult` contributes (`Game::bet`,
main.rs lines 66-87): `hash_next_roll` bits resized to 256, then
`hash_previous_roll` bits resized to 512, then `client_seed` bits resized
to 768, then the 32 nonce bits least-significant first, resized to 1024. -/
def encode_bet_result (b : BetResult) : List Nat :=
  let v1 := vec_resize (hex_string_to_binary_vec b.hash_next_roll) 256
  let v2 := vec_resize (v1 ++ hex_string_to_binary_vec b.hash_previous_roll) 512
  let v3 := vec_resize (v2 ++ hex_string_to_binary_vec b.client_seed) 768
  vec_resize (v3 ++ (List.range 32).map (fun i => (b.nonce >>> i) &&& 1)) 1024

/-- Regroup a bit list into nibble values, 4 bits each, most significant
first (the reading direction of the encoder). -/
def bits_to_nibbles : List Nat → List Nat
  | b3 :: b2 :: b1 :: b0 :: rest => (8 * b3 + 4 * b2 + 2 * b1 + b0) :: bits_to_nibbles rest
  | _ => []

/-- A fully-populated canonical bet result: two concrete 64-character hex
digests, a 40-character client seed, nonce 12345. -/
def sampleFullBetResult : BetResult where
  hash_previous_roll :=
    "e3b0c44298fc1c149afbf4c8996fb92427ae41e4649b934ca495991b7852b855".toList
  hash_next_roll :=
    "ba7816bf8f01cfea414140de5dae2223b00361a396177a9cb410ff61f20015ad".toList
  client_seed := "0123456789abcdef0123456789abcdef01234567".toList
  nonce := 12345
  symbol := "BTC".toList
  result := true
  is_high := true
  number := 5001
  threshold := 0
  chance := 0
  payout := 0
  bet_amount := 0
  win_amount := 0

/-! ## Rate-limit handling: `android-lib/src/duckdice_api.rs` -/

/-- The error taxonomy of `duckdice_api.rs` (lines 12-19). -/
inductive DuckDiceError where
  | NetworkError (msg : List Char)
  | ApiError (msg : List Char)
  | JsonError (msg : List Char)
  | AuthenticationError
  | RateLimitError (seconds : Nat)
deriving DecidableEq

/-- Decimal-digit accumulator of `u64::from_str`; fails on any non-digit
character. -/
def parseDecDigits : List Char → Nat → Option Nat
  | [], acc => some acc
  | c :: rest, acc =>
    if 48 ≤ c.toNat ∧ c.toNat ≤ 57 then parseDecDigits rest (acc * 10 + (c.toNat - 48))
    else none

/-- Rust `str::parse::<u64>`: an optional leading `+`, then at least one
ASCII digit, and the value must fit in a `u64` (overflow is an error). -/
def parse_u64 (s : List Char) : Option Nat :=
  let digits := match s with
    | '+' :: rest => rest
    | _ => s
  match digits with
  | [] => none
  | _ =>
    match parseDecDigits digits 0 with
    | some v => if v < 2 ^ 64 then some v else none
    | none => none

/-- `DuckDiceClient::handle_rate_limit` (lines 226-239): a 429 status
surfaces `RateLimitError` carrying the parsed `retry-after` seconds, or 60
when the header is absent or unparsable; any other status passes. -/
def handle_rate_limit (status : Nat) (retry_after : Option (List Char)) :
    Except DuckDiceError Unit :=
  if status = 429 then
    match retry_after with
    | some s =>
      match parse_u64 s with
      | some seconds => .error (.RateLimitError seconds)
      | none => .error (.RateLimitError 60)
    | none => .error (.RateLimitError 60)
  else .ok ()

/-! ## Orchestrator error dispatch: `src/main.rs` -/

/-- The error dispatch of `Game::bet` (main.rs lines 45-51): an `Ok` bet
result is settled (`some`), `EmptyReply` is swallowed into an `Ok` no-op
(`none`), and every other error is returned unmodified. -/
def game_bet_dispatch (α : Type) : Except BetError α → Except BetError (Option α)
  | .ok a => .ok (some a)
  | .error .EmptyReply => .ok none
  | .error e => .error e

/-- One iteration decision of the `main` loop (main.rs lines 241-251):
`Ok` means continue (`none`), `Err e` means halt and surface `e`. -/
def main_loop_halt (α : Type) : Except BetError α → Option BetError
  | .ok _ => none
  | .error e => some e

theorem luckyScan_eq_find (ds : List Nat) :
    luckyScan ds =
      ((fiveDigitWindows ds).find? (fun w => windowVal w ≤ 1000000)).map windowVal := by
  induction ds using luckyScan.induct with
  | case1 d0 d1 d2 d3 d4 rest v hv =>
    simp only [luckyScan, fiveDigitWindows]
    simp [List.find?_cons, hv]
  | case2 d0 d1 d2 d3 d4 rest v hv ih =>
    simp only [luckyScan, fiveDigitWindows]
    simp [List.find?_cons, hv, ih]
  | case3 t h =>
    rcases t with _ | ⟨a, _ | ⟨b, _ | ⟨c, _ | ⟨d, _ | ⟨e, t⟩⟩⟩⟩⟩
    · rfl
    · rfl
    · rfl
    · rfl
    · rfl
    · exact absurd rfl (h a b c d e t)

theorem beBytes_length (n : Nat) : ∀ x, (beBytes n x).length = n := by
  induction n with
  | zero => intro x; rfl
  | succ n ih => intro x; simp [beBytes, ih]

theorem sha256_length (msg : List Nat) : (sha256 msg).length = 32 := by
  simp [sha256, shaHash, shaDigest, beBytes_length, sha256Params]

theorem sha512_length (msg : List Nat) : (sha512 msg).length = 64 := by
  simp [sha512, shaHash, shaDigest, beBytes_length, sha512Params]

theorem hmac_sha256_length (key msg : List Nat) : (hmac sha256 64 key msg).length = 32 := by
  simp [hmac, sha256_length]

theorem u32_take_four (l : List Nat) (h : 4 ≤ l.length) :
    u32_from_le_bytes (l.take 4) =
      l.getD 0 0 + 256 * l.getD 1 0 + 65536 * l.getD 2 0 + 16777216 * l.getD 3 0 := by
  rcases l with _ | ⟨a, _ | ⟨b, _ | ⟨c, _ | ⟨d, t⟩⟩⟩⟩ <;>
    simp_all [u32_from_le_bytes]

/-! ## Theorems for claims C1, C5, C7 -/

set_option maxRecDepth 100000 in
/-- C1 is false as stated: at server seed `"a"`, client seed `"b"`, nonce 0,
the roll `fake_test::gen_fake_bet` computes (3681, from a plain SHA-512
digest scanned with threshold 1,000,000) differs from the roll the claim
describes (1738, from an HMAC-SHA512 tag scanned with threshold 0x100000). -/
theorem site_a_roll_claim_counterexample :
    gen_fake_bet_number [97] [98] 0 ≠ claimed_site_a_roll [97] [98] 0 := by
  decide

/-- C1 (amended): for every server seed, client seed and nonce, the site-A
roll is computed as plain SHA-512 (not HMAC) of
`server_seed || client_seed || decimal(nonce)`, hex-encoded; the 5-hex-digit
windows of the digest are scanned left to right; the first window whose
value is at most 1,000,000 (decimal, not `< 0x100000`) is accepted; the
returned roll equals that value mod 10000, hence lies in `[0, 10000)`
whenever a window is accepted. -/
theorem site_a_roll_amended (s c : List Nat) (n : Nat) :
    gen_fake_bet_number s c n = amended_site_a_roll s c n ∧
    ∀ v, gen_fake_bet_number s c n = some v → v < 10000 := by
  constructor
  · unfold gen_fake_bet_number amended_site_a_roll
    rw [luckyScan_eq_find, Option.map_map]
    rfl
  · intro v hv
    unfold gen_fake_bet_number at hv
    cases hl : luckyScan (hexNibbles (sha512 (s ++ c ++ natDecBytes n))) with
    | none => rw [hl] at hv; simp at hv
    | some u => rw [hl] at hv; simp at hv; omega

set_option maxRecDepth 100000 in
/-- Witness for `site_a_roll_amended` at server seed `"a"`, client seed
`"b"`, nonce 0, where the accepted roll is 3681. -/
theorem site_a_roll_amended_witness :
    gen_fake_bet_number [97] [98] 0 = amended_site_a_roll [97] [98] 0 ∧ 3681 < 10000 :=
  ⟨(site_a_roll_amended [97] [98] 0).1,
   (site_a_roll_amended [97] [98] 0).2 3681 (by decide)⟩

/-- C5: for every server seed, client seed and nonce, the site-B roll equals
HMAC-SHA256 with key `server_seed` over
`server_seed || client_seed || nonce` as big-endian bytes, with the first 4
tag bytes interpreted as a little-endian u32, reduced mod 10000 — and the
result lies in `[0, 10000)`. -/
theorem site_b_roll_correct (s c : List Nat) (n : Nat) :
    dataset_gen_fake_bet_number s c n = claimed_site_b_roll s c n ∧
    dataset_gen_fake_bet_number s c n < 10000 := by
  constructor
  · simp only [dataset_gen_fake_bet_number, claimed_site_b_roll]
    rw [u32_take_four _ (by simp [hmac_sha256_length])]
    norm_num
  · simp only [dataset_gen_fake_bet_number]
    exact Nat.mod_lt _ (by norm_num)

/-- C7: both roll variants are deterministic — two runs on equal
`(server_seed, client_seed, nonce)` inputs yield equal outputs.  Both
variants are pure functions of their inputs in this embedding, mirroring
that the Rust computations read nothing beyond their arguments. -/
theorem roll_deterministic (s c : List Nat) (n : Nat) (s2 c2 : List Nat) (n2 : Nat)
    (hs : s = s2) (hc : c = c2) (hn : n = n2) :
    gen_fake_bet_number s c n = gen_fake_bet_number s2 c2 n2 ∧
    dataset_gen_fake_bet_number s c n = dataset_gen_fake_bet_number s2 c2 n2 := by
  subst hs; subst hc; subst hn; exact ⟨rfl, rfl⟩

/-- Witness for `roll_deterministic` at server seed `"a"`, client seed
`"b"`, nonce 0. -/
theorem roll_deterministic_witness :
    gen_fake_bet_number [97] [98] 0 = gen_fake_bet_number [97] [98] 0 ∧
    dataset_gen_fake_bet_number [97] [98] 0 = dataset_gen_fake_bet_number [97] [98] 0 :=
  roll_deterministic [97] [98] 0 [97] [98] 0 rfl rfl rfl

theorem push_history_foldl {α : Type} (w : Nat) :
    ∀ (xs h : List α), h.length ≤ w →
      xs.foldl (push_history w) h = (h ++ xs).drop ((h ++ xs).length - w) := by
  intro xs
  induction xs with
  | nil =>
    intro h hh
    simp [Nat.sub_eq_zero_of_le hh]
  | cons x xs ih =>
    intro h hh
    rw [List.foldl_cons]
    by_cases hw : w < (h ++ [x]).length
    · have hlenh : h.length = w := by simp at hw; omega
      have hx : push_history w h x = (h ++ [x]).drop 1 := by
        simp only [push_history]; rw [if_pos hw]
      have hlen : ((h ++ [x]).drop 1).length ≤ w := by
        simp [hlenh]
      rw [hx, ih _ hlen]
      have e1 : (h ++ [x]).drop 1 ++ xs = ((h ++ [x]) ++ xs).drop 1 :=
        (List.drop_append_of_le_length (by simp)).symm
      have e2 : h ++ x :: xs = (h ++ [x]) ++ xs := by simp
      rw [e1, List.drop_drop, e2]
      congr 1
      simp [hlenh]
      omega
    · have hx : push_history w h x = h ++ [x] := by
        simp only [push_history]; rw [if_neg hw]
      have hlen : (h ++ [x]).length ≤ w := by simp at hw ⊢; omega
      rw [hx, ih _ hlen]
      have e2 : h ++ x :: xs = (h ++ [x]) ++ xs := by simp
      rw [e2]

/-! ## Theorems for claims C2, C3, C4 -/

/-- C2 is false as stated: with a full history window, currency minimum bet
20 (the PLAY minimum), bankroll 500 and strategy stake 1000,
`CryptoGames::do_bet` wagers 1000 — not the claimed
`max(min_bet, min(stake, bankroll)) = 500` — so the wagered stake exceeds
the bankroll. -/
theorem stake_clamp_counterexample :
    (crypto_games_wager ⟨10, 10, 20, 500⟩ 1000 2).1 ≠ spec_clamped_stake 20 500 1000 ∧
    (500 : ℚ) < (crypto_games_wager ⟨10, 10, 20, 500⟩ 1000 2).1 := by
  constructor <;> norm_num [crypto_games_wager, spec_clamped_stake]

/-- C2 (amended): the stake wagered by `CryptoGames::do_bet` is clamped only
from below, to `max(stake, currency_min_bet)` (with the stake overridden by
the currency minimum until the history window is full); it never falls
below the currency minimum but does not depend on the bankroll at all.
`FreeBitcoIn::do_bet` wagers the strategy stake unmodified once the window
is full.  Neither variant bounds the stake by the bankroll. -/
theorem stake_clamp_amended (hl hs : Nat) (mb b b2 s m : ℚ) (hfull : ¬ hl < hs) :
    (crypto_games_wager ⟨hl, hs, mb, b⟩ s m).1 = max (if hl < hs then mb else s) mb ∧
    mb ≤ (crypto_games_wager ⟨hl, hs, mb, b⟩ s m).1 ∧
    crypto_games_wager ⟨hl, hs, mb, b⟩ s m = crypto_games_wager ⟨hl, hs, mb, b2⟩ s m ∧
    free_bitco_in_wager hl hs s = s := by
  refine ⟨rfl, le_max_right _ _, rfl, ?_⟩
  simp [free_bitco_in_wager, hfull]

/-- Witness for `stake_clamp_amended` at a full window, minimum bet 20,
balances 500 and 7, strategy stake 1000. -/
theorem stake_clamp_amended_witness :
    (crypto_games_wager ⟨10, 10, 20, 500⟩ 1000 2).1 =
      max (if 10 < 10 then (20 : ℚ) else 1000) 20 ∧
    (20 : ℚ) ≤ (crypto_games_wager ⟨10, 10, 20, 500⟩ 1000 2).1 ∧
    crypto_games_wager ⟨10, 10, 20, 500⟩ 1000 2 = crypto_games_wager ⟨10, 10, 20, 7⟩ 1000 2 ∧
    free_bitco_in_wager 10 10 1000 = 1000 :=
  stake_clamp_amended 10 10 20 500 7 1000 2 (by decide)

/-- C3 is false as stated: at a stake (1000) exceeding the balance (500),
neither adapter returns an error value — both `panic!` with
"Not enough money!", aborting the process.  (`BetError` has no
`InsufficientBalance` variant to return.) -/
theorem insufficient_balance_counterexample :
    crypto_games_do_bet_settle ⟨10, 10, 20, 500⟩ 1000 2 sampleBetResult =
      DoBetOutcome.panicked "Not enough money!".toList ∧
    free_bitco_in_do_bet_settle 500 10 10 1000 sampleBetResult =
      DoBetOutcome.panicked "Not enough money!".toList := by
  constructor <;>
    norm_num [crypto_games_do_bet_settle, free_bitco_in_do_bet_settle,
      crypto_games_wager, free_bitco_in_wager]

/-- C3 (amended): whenever the wagered stake exceeds the current balance,
`do_bet` does not return at all: both adapters `panic!("Not enough money!")`
after having already issued the bet, and the process aborts; `BetError`
offers no insufficient-balance variant. -/
theorem insufficient_balance_amended (st : CryptoGamesState) (s m : ℚ) (r : BetResult)
    (b : ℚ) (hl hs : Nat) (s2 : ℚ) (r2 : BetResult)
    (h1 : st.strategy_balance < (crypto_games_wager st s m).1)
    (h2 : b < free_bitco_in_wager hl hs s2) :
    crypto_games_do_bet_settle st s m r = DoBetOutcome.panicked "Not enough money!".toList ∧
    free_bitco_in_do_bet_settle b hl hs s2 r2 =
      DoBetOutcome.panicked "Not enough money!".toList := by
  constructor
  · simp [crypto_games_do_bet_settle, h1]
  · simp [free_bitco_in_do_bet_settle, h2]

/-- Witness for `insufficient_balance_amended`: balance 500 against stake
1000 (CryptoGames), balance 0 against stake 1 (FreeBitcoIn). -/
theorem insufficient_balance_amended_witness :
    crypto_games_do_bet_settle ⟨10, 10, 20, 500⟩ 1000 2 sampleBetResult =
      DoBetOutcome.panicked "Not enough money!".toList ∧
    free_bitco_in_do_bet_settle 0 10 10 1 sampleBetResult =
      DoBetOutcome.panicked "Not enough money!".toList :=
  insufficient_balance_amended ⟨10, 10, 20, 500⟩ 1000 2 sampleBetResult 0 10 10 1
    sampleBetResult (by norm_num [crypto_games_wager])
    (by norm_num [free_bitco_in_wager])

/-- C4: pushing `N > W` results into an initially empty history window of
capacity `W` leaves, after every push, at most `W` stored items, exactly
`W` at the end — and the final contents are the last `W` pushed results in
their original relative order (FIFO eviction at index 0). -/
theorem history_window_fifo (w : Nat) (xs : List BetResult) (hw : w < xs.length) :
    (xs.foldl (push_history w) []).length = w ∧
    xs.foldl (push_history w) [] = xs.drop (xs.length - w) ∧
    ∀ n, ((xs.take n).foldl (push_history w) []).length ≤ w := by
  have base : ∀ ys : List BetResult,
      ys.foldl (push_history w) [] = ys.drop (ys.length - w) := by
    intro ys
    simpa using push_history_foldl w ys [] (by simp)
  refine ⟨?_, base xs, ?_⟩
  · rw [base xs]; simp; omega
  · intro n; rw [base (xs.take n)]; simp; omega

/-- Witness for `history_window_fifo`: two pushes into a window of
capacity one keep only the later push. -/
theorem history_window_fifo_witness :
    (([sampleBetResult, sampleBetResult].foldl (push_history 1) []).length = 1 ∧
      [sampleBetResult, sampleBetResult].foldl (push_history 1) [] =
        [sampleBetResult, sampleBetResult].drop ([sampleBetResult, sampleBetResult].length - 1) ∧
      ∀ n, (([sampleBetResult, sampleBetResult].take n).foldl (push_history 1) []).length ≤ 1) :=
  history_window_fifo 1 [sampleBetResult, sampleBetResult] (by simp)

theorem hex_char_digit_lt (c : Char) (v : Nat) (h : hex_char_digit c = some v) : v < 16 := by
  unfold hex_char_digit at h
  split_ifs at h <;> simp_all <;> omega

theorem nibble_of_bits (v : Nat) (h : v < 16) :
    8 * ((v >>> 3) &&& 1) + 4 * ((v >>> 2) &&& 1) + 2 * ((v >>> 1) &&& 1) + (v &&& 1) = v := by
  revert h
  revert v
  decide

theorem bits_roundtrip (s : List Char) (hhex : ∀ c ∈ s, (hex_char_digit c).isSome) :
    bits_to_nibbles (hex_string_to_binary_vec s) =
      s.map (fun c => (hex_char_digit c).getD 0) := by
  induction s with
  | nil => rfl
  | cons c s ih =>
    have hc : (hex_char_digit c).isSome := hhex c (List.mem_cons_self c s)
    obtain ⟨v, hv⟩ := Option.isSome_iff_exists.mp hc
    have hlt := hex_char_digit_lt c v hv
    simp only [hex_string_to_binary_vec, List.map_cons, List.flatten_cons, List.cons_append,
      List.nil_append, List.map] at ih ⊢
    rw [bits_to_nibbles]
    rw [ih (fun d hd => hhex d (List.mem_cons_of_mem c hd))]
    simp [hv]
    simpa using nibble_of_bits v hlt

theorem hex_bits_length (s : List Char) :
    (hex_string_to_binary_vec s).length = 4 * s.length := by
  induction s with
  | nil => rfl
  | cons c s ih =>
    simp only [hex_string_to_binary_vec, List.map_cons, List.flatten_cons,
      List.length_append, List.length_cons, List.length_nil] at ih ⊢
    omega

theorem vec_resize_length (l : List Nat) (n : Nat) : (vec_resize l n).length = n := by
  simp [vec_resize]
  omega

theorem vec_resize_take (l : List Nat) (n k : Nat) (hk : k ≤ n) (hl : k ≤ l.length) :
    (vec_resize l n).take k = l.take k := by
  unfold vec_resize
  rw [List.take_append_of_le_length (by simp; omega)]
  rw [List.take_take, Nat.min_eq_left hk]

/-! ## Theorems for claims C6, C8, C9 -/

/-- C6: the feature encoding is a deterministic pure function expanding each
hex character to 4 bits most-significant-bit first, so a 64-character hex
string encodes to exactly 256 bits; and for a fully-populated `BetResult`
(64-char hashes, 40-char client seed, nonce 12345) the 1024-bit slot's
first 256 bits, regrouped into nibbles, reproduce the hex digits of
`hash_next_roll`. -/
theorem feature_encoding_round_trip (b : BetResult)
    (h1 : b.hash_next_roll.length = 64)
    (hhex : ∀ c ∈ b.hash_next_roll, (hex_char_digit c).isSome)
    (h2 : b.hash_previous_roll.length = 64) (h3 : b.client_seed.length = 40)
    (h4 : b.nonce = 12345) :
    (hex_string_to_binary_vec b.hash_next_roll).length = 256 ∧
    (encode_bet_result b).length = 1024 ∧
    bits_to_nibbles ((encode_bet_result b).take 256) =
      b.hash_next_roll.map (fun c => (hex_char_digit c).getD 0) := by
  have hb : (hex_string_to_binary_vec b.hash_next_roll).length = 256 := by
    rw [hex_bits_length, h1]
  refine ⟨hb, ?_, ?_⟩
  · simp only [encode_bet_result]
    exact vec_resize_length _ _
  · have key : (encode_bet_result b).take 256 = hex_string_to_binary_vec b.hash_next_roll := by
      simp only [encode_bet_result]
      rw [vec_resize_take _ _ _ (by norm_num)
            (by simp only [List.length_append, vec_resize_length, List.length_map,
              List.length_range, hb]; omega),
          List.take_append_of_le_length
            (by simp only [List.length_append, vec_resize_length, List.length_map,
              List.length_range, hb]; omega),
          vec_resize_take _ _ _ (by norm_num)
            (by simp only [List.length_append, vec_resize_length, List.length_map,
              List.length_range, hb]; omega),
          List.take_append_of_le_length
            (by simp only [List.length_append, vec_resize_length, List.length_map,
              List.length_range, hb]; omega),
          vec_resize_take _ _ _ (by norm_num)
            (by simp only [List.length_append, vec_resize_length, List.length_map,
              List.length_range, hb]; omega),
          List.take_append_of_le_length
            (by simp only [List.length_append, vec_resize_length, List.length_map,
              List.length_range, hb]; omega),
          vec_resize_take _ _ _ (by norm_num) hb.ge,
          List.take_of_length_le hb.le]
    rw [key]
    exact bits_roundtrip b.hash_next_roll hhex

/-- Witness for `feature_encoding_round_trip`: a bet result carrying two
concrete 64-character digests, a 40-character client seed and nonce
12345. -/
theorem feature_encoding_round_trip_witness :
    (sampleFullBetResult.hash_next_roll.length = 64 ∧
      sampleFullBetResult.nonce = 12345) ∧
    ((hex_string_to_binary_vec sampleFullBetResult.hash_next_roll).length = 256 ∧
      (encode_bet_result sampleFullBetResult).length = 1024 ∧
      bits_to_nibbles ((encode_bet_result sampleFullBetResult).take 256) =
        sampleFullBetResult.hash_next_roll.map (fun c => (hex_char_digit c).getD 0)) :=
  ⟨⟨by rfl, by rfl⟩,
   feature_encoding_round_trip sampleFullBetResult (by rfl) (by decide) (by rfl) (by rfl)
     (by rfl)⟩

/-- C8: `handle_rate_limit` surfaces a rate-limit error exactly on status
429, carrying the integer-parsed `retry-after` seconds when the header is
present and parses, and the default 60 seconds otherwise; any non-429
status yields `Ok`. -/
theorem rate_limit_handling (status : Nat) (ra : Option (List Char)) :
    handle_rate_limit status ra =
      if status = 429 then
        Except.error (DuckDiceError.RateLimitError ((ra.bind parse_u64).getD 60))
      else Except.ok () := by
  unfold handle_rate_limit
  by_cases h : status = 429
  · cases ra with
    | none => simp [h]
    | some s =>
      cases hp : parse_u64 s with
      | none => simp [h, hp]
      | some seconds => simp [h, hp]
  · simp [h]

/-- C9: in `Game::bet`, `EmptyReply` from `do_bet` is a no-op (`Ok`,
continue), while every other `BetError` halts the loop and surfaces
unmodified to the caller; successful results are settled. -/
theorem bet_error_dispatch (α : Type) (a : α) (e : BetError)
    (he : e ≠ BetError.EmptyReply) :
    game_bet_dispatch α (Except.error BetError.EmptyReply) = Except.ok none ∧
    main_loop_halt (Option α) (game_bet_dispatch α (Except.error BetError.EmptyReply)) =
      none ∧
    game_bet_dispatch α (Except.error e) = Except.error e ∧
    main_loop_halt (Option α) (game_bet_dispatch α (Except.error e)) = some e ∧
    game_bet_dispatch α (Except.ok a) = Except.ok (some a) := by
  refine ⟨rfl, rfl, ?_, ?_, rfl⟩ <;>
    cases e <;> simp_all [game_bet_dispatch, main_loop_halt]

/-- Witness for `bet_error_dispatch` with the error `Failed`. -/
theorem bet_error_dispatch_witness :
    game_bet_dispatch Nat (Except.error BetError.EmptyReply) = Except.ok none ∧
    main_loop_halt (Option Nat) (game_bet_dispatch Nat (Except.error BetError.EmptyReply)) =
      none ∧
    game_bet_dispatch Nat (Except.error BetError.Failed) = Except.error BetError.Failed ∧
    main_loop_halt (Option Nat) (game_bet_dispatch Nat (Except.error BetError.Failed)) =
      some BetError.Failed ∧
    game_bet_dispatch Nat (Except.ok 7) = Except.ok (some 7) :=
  bet_error_dispatch Nat 7 BetError.Failed (by decide)

end PredictiveRolls

